import Mathlib

/-!
Verification of `src/sort_downloads_by_year.py` (downloads-year-sorter).

The script is embedded shallowly:

* A filesystem path relative to the downloads directory is a list of
  name components (`FPath`).
* The contents of the downloads directory are a finite structure `FS`:
  its immediate children (`FS.top`, one `Node` per child, carrying the
  `os.stat` data the script inspects), the existing depth-two paths
  (`FS.deep`, the only deeper paths the script ever probes), the set of
  directory names whose creation would raise `OSError` (`FS.badMkdir`),
  and the set of transfers that would raise inside `shutil`
  (`FS.failTransfer`).
* Python exceptions become `Option`: `none` is a raised `OSError`.
* `datetime.fromtimestamp(ts).year` is embedded as the year numbers
  stored on each node (`ctimeYear`/`mtimeYear`); `str.isdigit` is
  modelled over ASCII digits via `Char.isDigit`.

Each function of the script (`default_downloads_dir`, `file_year`,
`unique_destination`, `is_windows_junction`, `iter_entries`, `plan_ops`,
`do_transfer`, `main`) has a definition below that mirrors its control
flow statement by statement.
-/

namespace SortDownloads

abbrev Name := String

/-- A filesystem path relative to the downloads directory: its list of
name components. -/
abbrev FPath := List Name

/-! ### Name splitting as in `pathlib` (`Path.stem` / `Path.suffix`)

`pathlib` computes `i = name.rfind('.')` and splits at `i` when
`0 < i < len(name) - 1`, otherwise the suffix is empty. -/

/-- Index of the last occurrence of a character in a list, if any
(`str.rfind`). -/
def rfindIdx (c : Char) : List Char → Option Nat
  | [] => none
  | a :: rest =>
    match rfindIdx c rest with
    | some j => some (j + 1)
    | none => if a = c then some 0 else none

/-- Split a file name into `(stem, suffix)` exactly as `pathlib` does. -/
def splitName (name : Name) : Name × Name :=
  match rfindIdx '.' name.data with
  | some i =>
    if 0 < i ∧ i < name.data.length - 1 then
      (⟨name.data.take i⟩, ⟨name.data.drop i⟩)
    else (name, "")
  | none => (name, "")

/-- The candidate name `f"{stem} ({i}){suffix}"`. -/
def numbered (stem sfx : Name) (i : Nat) : Name :=
  stem ++ " (" ++ Nat.repr i ++ ")" ++ sfx

/-- Decimal digits of `n`, most significant first.  Plain-recursion
counterpart of `Nat.toDigitsCore`, used to reason about `Nat.repr`
(which embeds Python's `str(y)` and the `({i})` counters). -/
def reprDigits (n : Nat) : List Char :=
  if _h : n < 10 then [Nat.digitChar n]
  else reprDigits (n / 10) ++ [Nat.digitChar (n % 10)]
termination_by n
decreasing_by exact Nat.div_lt_self (by omega) (by omega)

/-- Value of a list of decimal digit characters (left fold). -/
def digitsVal (cs : List Char) : Nat :=
  cs.foldl (fun a c => a * 10 + (c.toNat - 48)) 0

/-! ### The destination resolver `unique_destination`

The while-loop in the script probes `stem (1)suffix`, `stem (2)suffix`,
… until a name is free.  We give the loop `ex.length + 1` fuel, where
`ex` is the list of existing paths; since the candidates are pairwise
distinct paths, the fuel provably suffices and the base case of `probe`
is never reached (`probe_spec` below). -/

/-- The probing loop of `unique_destination`: try candidate `i`, then
`i + 1`, and so on. -/
def probe (ex : List FPath) (parent : FPath) (stem sfx : Name) : Nat → Nat → FPath
  | 0, i => parent ++ [numbered stem sfx i]
  | fuel + 1, i =>
    let c := parent ++ [numbered stem sfx i]
    if c ∈ ex then probe ex parent stem sfx fuel (i + 1) else c

/-- Final name component of a path (`Path.name`). -/
def lastName (p : FPath) : Name := p.getLastD ""

/-- Embedding of `unique_destination(dest)`, with `ex` the list of paths that exist:
return `dest` if it does not exist, otherwise probe
`stem (1)suffix`, `stem (2)suffix`, … -/
def unique_destination (ex : List FPath) (dest : FPath) : FPath :=
  if dest ∈ ex then
    probe ex dest.dropLast (splitName (lastName dest)).1 (splitName (lastName dest)).2
      (ex.length + 1) 1
  else dest

/-- The `i`-th candidate `parent / f"{stem} ({i}){suffix}"` probed for a
destination `dest`. -/
def candidateAt (dest : FPath) (i : Nat) : FPath :=
  dest.dropLast ++ [numbered (splitName (lastName dest)).1 (splitName (lastName dest)).2 i]

/-! ### Directory entries and the filesystem -/

/-- An immediate child of the downloads directory, with the data the
script reads from it: its name, `entry.is_dir()` (which follows
symlinks), `entry.is_symlink()`, whether `is_windows_junction` holds of
it, whether `entry.stat()` succeeds, and the calendar years of its
creation-like and modification timestamps. -/
structure Node where
  name : Name
  isDir : Bool
  isSymlink : Bool
  isJunction : Bool
  statOk : Bool
  ctimeYear : Nat
  mtimeYear : Nat
deriving DecidableEq

/-- Embedding of `is_windows_junction(path)`: the platform- and `lstat`-based
detection in the script collapses, for a given entry, to the junction
attribute recorded on it (`False` everywhere off Windows). -/
def is_windows_junction (e : Node) : Bool := e.isJunction

/-- Embedding of `str.isdigit` over ASCII digits: nonempty and all digits. -/
def strIsDigit (s : Name) : Bool := !s.data.isEmpty && s.data.all Char.isDigit

/-- The filter of `iter_entries`, one `if` per `continue` of the loop:
skip four-digit directories always, skip symlinks/junctions unless
`include_links`, skip remaining directories unless `include_dirs`. -/
def keepEntry (include_dirs include_links : Bool) (e : Node) : Bool :=
  if e.isDir && (strIsDigit e.name && (e.name.length == 4)) then false
  else if (e.isSymlink || is_windows_junction e) && !include_links then false
  else if e.isDir && !include_dirs then false
  else true

/-- Embedding of `str.lower()` over the characters (ASCII case mapping). -/
def strLower (s : Name) : Name := ⟨s.data.map Char.toLower⟩

/-- Lexicographic code-point order on character lists: Python's string
comparison. -/
def charsLe : List Char → List Char → Bool
  | [], _ => true
  | _ :: _, [] => false
  | a :: as, b :: bs =>
    if a.toNat = b.toNat then charsLe as bs
    else decide (a.toNat < b.toNat)

/-- The sort key comparison of `iter_entries`:
`sorted(root.iterdir(), key=lambda p: p.name.lower())`. -/
def lowerLe (a b : Node) : Bool := charsLe (strLower a.name).data (strLower b.name).data

/-- Insert an element into a list sorted by `lowerLe`, before the first
element it is `lowerLe`-below-or-equal: the stable insertion step. -/
def insertLe (a : Node) : List Node → List Node
  | [] => [a]
  | b :: bs => if lowerLe a b then a :: b :: bs else b :: insertLe a bs

/-- Embedding of `sorted(..., key=lambda p: p.name.lower())`: Python's `sorted` is a
stable sort, and a stable sort's output is uniquely determined by the
key order, so it is modelled by stable insertion sort. -/
def sortEntries : List Node → List Node
  | [] => []
  | a :: as => insertLe a (sortEntries as)

/-- Embedding of `iter_entries(root, include_dirs, include_links)` over the listing
`top` of the directory (in `os` iteration order). -/
def iter_entries (top : List Node) (include_dirs include_links : Bool) : List Node :=
  (sortEntries top).filter (keepEntry include_dirs include_links)

/-- The command-line options (the `downloads` path itself is implicit:
the `FS` value is the contents of that directory). -/
structure Options where
  mode : Name
  date_source : Name
  dry_run : Bool
  include_dirs : Bool
  include_links : Bool
  verbose : Bool
deriving DecidableEq

/-- The downloads directory: its immediate children, the existing
depth-two paths below it, the directory names whose `mkdir` raises, and
the `(src, dest)` transfers whose `shutil` call raises. -/
structure FS where
  top : List Node
  deep : List (Name × Name)
  badMkdir : List Name
  failTransfer : List (Name × FPath)
deriving DecidableEq

/-- The paths that `Path.exists()` can see in the model: each top-level
child as a one-component path and each recorded depth-two path. -/
def existingPaths (fs : FS) : List FPath :=
  fs.top.map (fun e => [e.name]) ++ fs.deep.map (fun d => [d.1, d.2])

/-- Embedding of `file_year(p, date_source)`: `none` when `p.stat()` raises, else the
year of `st_ctime` for `"created"` and of `st_mtime` otherwise. -/
def file_year (e : Node) (date_source : Name) : Option Nat :=
  if e.statOk then
    some (if date_source = "created" then e.ctimeYear else e.mtimeYear)
  else none

/-- Look up a top-level child by name. -/
def topFind (fs : FS) (n : Name) : Option Node :=
  fs.top.find? (fun e => e.name == n)

/-- Embedding of `(downloads / n).exists()` for the one-component path `n`. -/
def topExists (fs : FS) (n : Name) : Bool := (topFind fs n).isSome

/-- Embedding of `(downloads / n).is_dir()` for the one-component path `n`. -/
def topIsDir (fs : FS) (n : Name) : Bool := (topFind fs n).elim false Node.isDir

/-- A directory node freshly created by `mkdir` (the fields the script
never reads on it are defaulted). -/
def dirNode (n : Name) : Node := ⟨n, true, false, false, true, 0, 0⟩

/-- Embedding of `target_dir.mkdir(exist_ok=True)`: a no-op when the directory
exists, `OSError` on the recorded bad names, else the directory is
added. -/
def mkdir_exist_ok (fs : FS) (td : Name) : Option FS :=
  if topExists fs td then some fs
  else if fs.badMkdir.contains td then none
  else some { fs with top := fs.top ++ [dirNode td] }

/-- A planned operation: the `(entry, dest)` pair yielded by
`plan_ops`. -/
structure Op where
  src : Name
  dest : FPath
deriving DecidableEq

/-- The warnings `plan_ops` prints: unreadable metadata (verbose only),
year-target-not-a-directory, and failed year-folder creation. -/
inductive LogMsg where
  | warnTime (n : Name)
  | warnNotDir (n : Name)
  | warnMkdir (n : Name)
deriving DecidableEq

/-- The body of `plan_ops` over the already-enumerated entries,
threading the filesystem (year-folder creation mutates it):
returns (ops, warnings, final filesystem). -/
def plan_ops_go (opts : Options) (fs : FS) : List Node → List Op × List LogMsg × FS
  | [] => ([], [], fs)
  | e :: es =>
    match file_year e opts.date_source with
    | none =>
      let r := plan_ops_go opts fs es
      (r.1, (if opts.verbose then [LogMsg.warnTime e.name] else []) ++ r.2.1, r.2.2)
    | some y =>
      if topExists fs (Nat.repr y) && !topIsDir fs (Nat.repr y) then
        let r := plan_ops_go opts fs es
        (r.1, LogMsg.warnNotDir e.name :: r.2.1, r.2.2)
      else
        match (if opts.dry_run then some fs else mkdir_exist_ok fs (Nat.repr y)) with
        | none =>
          let r := plan_ops_go opts fs es
          (r.1, LogMsg.warnMkdir e.name :: r.2.1, r.2.2)
        | some fs1 =>
          let dest := unique_destination (existingPaths fs1) [Nat.repr y, e.name]
          let r := plan_ops_go opts fs1 es
          (⟨e.name, dest⟩ :: r.1, r.2.1, r.2.2)

/-- Embedding of `plan_ops(opts)`: the enumeration (`sorted` materialises the listing
before the first entry is processed, so later `mkdir`s do not feed back
into it) followed by the per-entry planning. -/
def plan_ops (opts : Options) (fs : FS) : List Op × List LogMsg × FS :=
  plan_ops_go opts fs (iter_entries fs.top opts.include_dirs opts.include_links)

/-- The depth-two paths a destination contributes to `FS.deep`. -/
def destDeep (dest : FPath) : List (Name × Name) :=
  match dest with
  | [d, n] => [(d, n)]
  | _ => []

/-- Embedding of `do_transfer(src, dest, mode)`: `none` when the `shutil` call
raises (recorded in `failTransfer`); `copy` leaves the source in place,
`move` removes it from the top level; either way the destination now
exists. -/
def do_transfer (fs : FS) (mode : Name) (op : Op) : Option FS :=
  if fs.failTransfer.contains (op.src, op.dest) then none
  else if mode = "copy" then some { fs with deep := fs.deep ++ destDeep op.dest }
  else some { fs with
    top := fs.top.filter (fun e => !(e.name == op.src)),
    deep := fs.deep ++ destDeep op.dest }

/-- The execution loop of `main`: per-operation try/except, counting
failures and recording an `[ERROR] src -> dest` line for each, never
aborting.  Returns (filesystem, failure count, error lines, attempted
operations in order). -/
def exec_all (mode : Name) (fs : FS) : List Op → FS × Nat × List (Name × FPath) × List Op
  | [] => (fs, 0, [], [])
  | op :: ops =>
    match do_transfer fs mode op with
    | none =>
      let r := exec_all mode fs ops
      (r.1, r.2.1 + 1, (op.src, op.dest) :: r.2.2.1, op :: r.2.2.2)
    | some fs1 =>
      let r := exec_all mode fs1 ops
      (r.1, r.2.1, r.2.2.1, op :: r.2.2.2)

/-- One line of the preview `main` prints:
`(ACTION, src.name, dest.relative_to(downloads))`. -/
def previewLine (opts : Options) (op : Op) : Name × Name × FPath :=
  ((if opts.mode = "copy" then "COPY" else "MOVE"), op.src, op.dest)

/-- The observable outcome of one invocation of `main` (after the
configuration check): final filesystem, the materialised plan, the
printed preview, the operations the executor attempted, the failure
count and error lines, the planning warnings, whether `Nothing to do.`
was printed, and whether the process exits with status zero. -/
structure RunResult where
  fs : FS
  planned : List Op
  preview : List (Name × Name × FPath)
  attempted : List Op
  failures : Nat
  errors : List (Name × FPath)
  logs : List LogMsg
  nothingToDo : Bool
  exitOk : Bool
deriving DecidableEq

/-- Embedding of `main` from `ops = list(plan_ops(opts))` on: the plan is fully
materialised, an empty plan prints `Nothing to do.` and returns, the
preview is printed, a dry run stops there, otherwise the plan is
executed and a nonzero failure count raises `SystemExit`. -/
def main_run (opts : Options) (fs0 : FS) : RunResult :=
  let p := plan_ops opts fs0
  if p.1.isEmpty then
    ⟨p.2.2, p.1, [], [], 0, [], p.2.1, true, true⟩
  else
    let pre := p.1.map (previewLine opts)
    if opts.dry_run then
      ⟨p.2.2, p.1, pre, [], 0, [], p.2.1, false, true⟩
    else
      let r := exec_all opts.mode p.2.2 p.1
      ⟨r.1, p.1, pre, r.2.2.2, r.2.1, r.2.2.1, p.2.1, false, r.2.1 == 0⟩

/-! ### The default target resolver `default_downloads_dir` -/

/-- The environment `default_downloads_dir` consults: `os.name`, the
`OneDrive` and `USERPROFILE` variables, `Path.home()`, the paths that
exist and are directories, and the paths whose probe raises
`OSError`. -/
structure Env where
  os_name : Name
  oneDrive : Option Name
  userProfile : Option Name
  home : Name
  dirPaths : List FPath
  errPaths : List FPath
deriving DecidableEq

/-- The candidate list `default_downloads_dir` builds, in order. -/
def dd_candidates (env : Env) : List FPath :=
  if env.os_name = "nt" then
    (match env.oneDrive with
     | some od => [[od, "Downloads"]]
     | none => []) ++
    (match env.userProfile with
     | some up => [[up, "Downloads"]]
     | none => []) ++
    [[env.home, "Downloads"], [env.home, "OneDrive", "Downloads"]]
  else [[env.home, "Downloads"]]

/-- One probe of the candidate loop: `path.exists() and path.is_dir()`,
with a raised `OSError` treated as a failed probe (the `except` arm
continues the loop). -/
def dd_ok (env : Env) (p : FPath) : Bool :=
  !env.errPaths.contains p && env.dirPaths.contains p

/-- Embedding of `default_downloads_dir()`: first candidate that exists and is a
directory, else `candidates[0]`. -/
def default_downloads_dir (env : Env) : FPath :=
  match (dd_candidates env).find? (dd_ok env) with
  | some p => p
  | none => (dd_candidates env).headD []

/-! ### Concrete inputs used by counterexamples and witnesses -/

/-- A regular file named `n` whose two timestamps fall in year `y`. -/
def fileNode (n : Name) (y : Nat) : Node := ⟨n, false, false, false, true, y, y⟩

/-- Default options: `--mode move --date-source created`, no flags. -/
def optsMove : Options := ⟨"move", "created", false, false, false, false⟩

/-- Two siblings destined for year 2021 while `2021/photo.jpg` already
exists. -/
def fsC10 : FS :=
  ⟨[fileNode "photo.jpg" 2021, fileNode "photo (1).jpg" 2021, dirNode "2021"],
   [("2021", "photo.jpg")], [], []⟩

/-- A top-level regular file named `2021` (year 2020) next to a file
`a` of year 2021. -/
def fsC4 : FS := ⟨[fileNode "2021" 2020, fileNode "a" 2021], [], [], []⟩

/-- A single file of year 2021. -/
def fsW1 : FS := ⟨[fileNode "a.txt" 2021], [], [], []⟩

/-- Windows environment with `OneDrive` set and no candidate existing
as a directory. -/
def envC8 : Env := ⟨"nt", some "C:/OneDrive", some "C:/Users/u", "C:/Users/u", [], []⟩

/-- A Unix-like environment whose home `Downloads` directory exists. -/
def envW8 : Env := ⟨"posix", none, none, "/home/u", [["/home/u", "Downloads"]], []⟩

/-- Options for `--dry-run` with otherwise default flags. -/
def optsDry : Options := ⟨"move", "created", true, false, false, false⟩

/-- Options for `--verbose` with otherwise default flags. -/
def optsVerb : Options := ⟨"move", "created", false, false, false, true⟩

/-- An empty downloads directory. -/
def fsEmpty : FS := ⟨[], [], [], []⟩

/-- An entry whose `stat()` raises. -/
def eBad : Node := ⟨"x", false, false, false, false, 0, 0⟩

/-- A file of year 2021. -/
def eA : Node := fileNode "a" 2021

/-- A directory whose year-folder name `2021` is occupied by a file. -/
def fs2021 : FS := ⟨[fileNode "2021" 2020], [], [], []⟩

/-- A directory where creating the year folder `2021` raises. -/
def fsBad : FS := ⟨[], [], ["2021"], []⟩

/-- A directory with two files whose transfer of `b.txt` fails. -/
def fsFail : FS :=
  ⟨[fileNode "a.txt" 2021, fileNode "b.txt" 2021], [], [],
   [("b.txt", ["2021", "b.txt"])]⟩

/-! ## General lemmas -/

theorem reprDigits_lt (n : Nat) (h : n < 10) : reprDigits n = [Nat.digitChar n] := by
  rw [reprDigits]; simp [h]

theorem reprDigits_ge (n : Nat) (h : ¬ n < 10) :
    reprDigits n = reprDigits (n / 10) ++ [Nat.digitChar (n % 10)] := by
  rw [reprDigits]; simp [h]

theorem toDigitsCore_eq_reprDigits :
    ∀ f n ds, 0 < f → n < 10 ^ f → Nat.toDigitsCore 10 f n ds = reprDigits n ++ ds := by
  intro f
  induction f with
  | zero => omega
  | succ f ih =>
    intro n ds _ hlt
    by_cases h0 : n / 10 = 0
    · have hn : n < 10 := by omega
      have hm : n % 10 = n := by omega
      simp [Nat.toDigitsCore, h0, reprDigits_lt n hn, hm]
    · have hn : ¬ n < 10 := by omega
      have hf : 0 < f := by
        by_contra hf0
        have : f = 0 := by omega
        subst this
        simp at hlt
        omega
      have hdiv : n / 10 < 10 ^ f := by
        have h1 : n < 10 ^ f * 10 := by
          have : (10 : Nat) ^ (f + 1) = 10 ^ f * 10 := by ring
          omega
        exact (Nat.div_lt_iff_lt_mul (by omega)).mpr h1
      simp only [Nat.toDigitsCore, h0, if_false]
      rw [ih (n / 10) (Nat.digitChar (n % 10) :: ds) hf hdiv,
          reprDigits_ge n hn, List.append_assoc]
      rfl

theorem toDigits_eq_reprDigits (n : Nat) : Nat.toDigits 10 n = reprDigits n := by
  have h1 : n < 10 ^ n := Nat.lt_pow_self (by omega) n
  have h2 : (10 : Nat) ^ n ≤ 10 ^ (n + 1) := Nat.pow_le_pow_right (by omega) (by omega)
  have := toDigitsCore_eq_reprDigits (n + 1) n [] (by omega) (by omega)
  simpa [Nat.toDigits] using this

theorem repr_data (n : Nat) : (Nat.repr n).data = reprDigits n := by
  show (Nat.toDigits 10 n).asString.data = reprDigits n
  rw [toDigits_eq_reprDigits]
  rfl

theorem digitChar_toNat : ∀ d, d < 10 → (Nat.digitChar d).toNat = 48 + d := by decide

theorem digitsVal_reprDigits (n : Nat) : digitsVal (reprDigits n) = n := by
  induction n using Nat.strong_induction_on with
  | _ n ih =>
    by_cases h : n < 10
    · simp [reprDigits_lt n h, digitsVal, digitChar_toNat n h]
    · have hlt : n / 10 < n := Nat.div_lt_self (by omega) (by omega)
      have hmod : n % 10 < 10 := by omega
      have := ih (n / 10) hlt
      simp only [reprDigits_ge n h, digitsVal, List.foldl_append, List.foldl_cons,
        List.foldl_nil] at *
      rw [this, digitChar_toNat (n % 10) hmod]
      omega

theorem repr_data_inj {m n : Nat} (h : (Nat.repr m).data = (Nat.repr n).data) : m = n := by
  rw [repr_data, repr_data] at h
  have := congrArg digitsVal h
  rwa [digitsVal_reprDigits, digitsVal_reprDigits] at this

theorem numbered_inj {stem sfx : Name} {a b : Nat}
    (h : numbered stem sfx a = numbered stem sfx b) : a = b := by
  have hd := congrArg String.data h
  simp only [numbered, String.data_append, List.append_assoc] at hd
  have h1 := List.append_cancel_left hd
  have h2 := List.append_cancel_left h1
  rw [← List.append_assoc, ← List.append_assoc] at h2
  have h3 := List.append_cancel_right h2
  have h4 := List.append_cancel_right h3
  exact repr_data_inj h4

theorem candidate_inj {parent : FPath} {stem sfx : Name} {a b : Nat}
    (h : parent ++ [numbered stem sfx a] = parent ++ [numbered stem sfx b]) : a = b := by
  have h1 := List.append_cancel_left h
  exact numbered_inj (List.head_eq_of_cons_eq h1)

theorem exists_free_candidate (ex : List FPath) (parent : FPath) (stem sfx : Name) (i : Nat) :
    ∃ k, k < ex.length + 1 ∧ parent ++ [numbered stem sfx (i + k)] ∉ ex := by
  by_contra hall
  push_neg at hall
  have hmem : ∀ k, k < ex.length + 1 → parent ++ [numbered stem sfx (i + k)] ∈ ex := hall
  set f : Nat → FPath := fun k => parent ++ [numbered stem sfx (i + k)] with hf
  have hinj : Function.Injective f := by
    intro a b h
    have := candidate_inj h
    omega
  set L : List FPath := (List.range (ex.length + 1)).map f with hL
  have hnd : L.Nodup := List.Nodup.map hinj (List.nodup_range (ex.length + 1))
  have hsub : L.toFinset ⊆ ex.toFinset := by
    intro x hx
    rw [List.mem_toFinset] at hx
    rw [List.mem_toFinset]
    rw [hL, List.mem_map] at hx
    obtain ⟨k, hk, rfl⟩ := hx
    rw [List.mem_range] at hk
    exact hmem k hk
  have h1 : L.toFinset.card = L.length := List.toFinset_card_of_nodup hnd
  have h2 : L.length = ex.length + 1 := by simp [hL]
  have h3 : ex.toFinset.card ≤ ex.length := List.toFinset_card_le ex
  have h4 := Finset.card_le_card hsub
  omega

theorem probe_spec (ex : List FPath) (parent : FPath) (stem sfx : Name) :
    ∀ fuel i, (∃ k, k < fuel ∧ parent ++ [numbered stem sfx (i + k)] ∉ ex) →
    ∃ n, i ≤ n ∧ probe ex parent stem sfx fuel i = parent ++ [numbered stem sfx n]
      ∧ parent ++ [numbered stem sfx n] ∉ ex
      ∧ ∀ m, i ≤ m → m < n → parent ++ [numbered stem sfx m] ∈ ex := by
  intro fuel
  induction fuel with
  | zero =>
    intro i h
    obtain ⟨k, hk, _⟩ := h
    omega
  | succ fuel ih =>
    intro i h
    obtain ⟨k, hk, hfree⟩ := h
    by_cases hc : parent ++ [numbered stem sfx i] ∈ ex
    · have hk0 : k ≠ 0 := by
        rintro rfl
        rw [Nat.add_zero] at hfree
        exact hfree hc
      have hstep : i + 1 + (k - 1) = i + k := by omega
      obtain ⟨n, hin, heq, hnot, hall⟩ := ih (i + 1) ⟨k - 1, by omega, by rw [hstep]; exact hfree⟩
      refine ⟨n, by omega, ?_, hnot, ?_⟩
      · simp only [probe, hc, if_true]
        exact heq
      · intro m him hmn
        rcases Nat.eq_or_lt_of_le him with hm | hm
        · rw [← hm]; exact hc
        · exact hall m (by omega) hmn
    · refine ⟨i, Nat.le_refl i, ?_, hc, ?_⟩
      · simp only [probe, hc, if_false]
      · intro m h1 h2
        omega

theorem unique_destination_exists (ex : List FPath) (dest : FPath) (h : dest ∈ ex) :
    ∃ n, 1 ≤ n ∧ unique_destination ex dest = candidateAt dest n
      ∧ candidateAt dest n ∉ ex
      ∧ ∀ m, 1 ≤ m → m < n → candidateAt dest m ∈ ex := by
  obtain ⟨n, h1, h2, h3, h4⟩ :=
    probe_spec ex dest.dropLast (splitName (lastName dest)).1 (splitName (lastName dest)).2
      (ex.length + 1) 1
      (exists_free_candidate ex dest.dropLast (splitName (lastName dest)).1
        (splitName (lastName dest)).2 1)
  refine ⟨n, h1, ?_, h3, h4⟩
  rw [unique_destination, if_pos h]
  exact h2

theorem keepEntry_iff (d l : Bool) (e : Node) :
    keepEntry d l e = true ↔
      ¬(e.isDir = true ∧ strIsDigit e.name = true ∧ e.name.length = 4)
      ∧ (l = false → ¬(e.isSymlink = true ∨ is_windows_junction e = true))
      ∧ (d = false → e.isDir = false) := by
  unfold keepEntry
  by_cases hLen : e.name.length = 4 <;> by_cases hDig : strIsDigit e.name = true <;>
    cases hD : e.isDir <;> cases hS : e.isSymlink <;> cases hJ : is_windows_junction e <;>
    cases d <;> cases l <;>
    simp_all

theorem charsLe_trans :
    ∀ x y z : List Char, charsLe x y = true → charsLe y z = true → charsLe x z = true := by
  intro x
  induction x with
  | nil => intro y z _ _; rfl
  | cons a as ih =>
    intro y z hxy hyz
    cases y with
    | nil => cases hxy
    | cons b bs =>
      cases z with
      | nil => cases hyz
      | cons c cs =>
        simp only [charsLe] at hxy hyz ⊢
        by_cases hab : a.toNat = b.toNat <;> by_cases hbc : b.toNat = c.toNat
        · rw [if_pos hab] at hxy
          rw [if_pos hbc] at hyz
          rw [if_pos (by omega)]
          exact ih bs cs hxy hyz
        · rw [if_pos hab] at hxy
          rw [if_neg hbc] at hyz
          have hlt : b.toNat < c.toNat := of_decide_eq_true hyz
          rw [if_neg (by omega)]
          exact decide_eq_true (by omega)
        · rw [if_neg hab] at hxy
          have hlt : a.toNat < b.toNat := of_decide_eq_true hxy
          rw [if_neg (by omega)]
          exact decide_eq_true (by omega)
        · rw [if_neg hab] at hxy
          rw [if_neg hbc] at hyz
          have h1 : a.toNat < b.toNat := of_decide_eq_true hxy
          have h2 : b.toNat < c.toNat := of_decide_eq_true hyz
          rw [if_neg (by omega)]
          exact decide_eq_true (by omega)

theorem charsLe_total : ∀ x y : List Char, (charsLe x y || charsLe y x) = true := by
  intro x
  induction x with
  | nil => intro y; rfl
  | cons a as ih =>
    intro y
    cases y with
    | nil => rfl
    | cons b bs =>
      simp only [charsLe]
      by_cases hab : a.toNat = b.toNat
      · rw [if_pos hab, if_pos (by omega)]
        exact ih bs
      · rw [if_neg hab, if_neg (by omega)]
        rcases Nat.lt_or_ge a.toNat b.toNat with h | h
        · rw [Bool.or_eq_true]
          exact Or.inl (decide_eq_true h)
        · rw [Bool.or_eq_true]
          exact Or.inr (decide_eq_true (by omega))

theorem lowerLe_trans : ∀ a b c : Node, lowerLe a b → lowerLe b c → lowerLe a c := by
  intro a b c hab hbc
  exact charsLe_trans _ _ _ hab hbc

theorem lowerLe_total : ∀ a b : Node, lowerLe a b || lowerLe b a := by
  intro a b
  exact charsLe_total _ _

theorem insertLe_perm (a : Node) (l : List Node) : List.Perm (insertLe a l) (a :: l) := by
  induction l with
  | nil => exact List.Perm.refl _
  | cons b bs ih =>
    unfold insertLe
    by_cases h : lowerLe a b = true
    · rw [if_pos h]
    · rw [if_neg h]
      exact (List.Perm.cons b ih).trans (List.Perm.swap a b bs)

theorem sortEntries_perm (l : List Node) : List.Perm (sortEntries l) l := by
  induction l with
  | nil => exact List.Perm.refl _
  | cons a as ih => exact (insertLe_perm a (sortEntries as)).trans (List.Perm.cons a ih)

theorem mem_sortEntries {l : List Node} {x : Node} : x ∈ sortEntries l ↔ x ∈ l :=
  (sortEntries_perm l).mem_iff

theorem pairwise_insertLe (a : Node) (l : List Node)
    (h : l.Pairwise (fun x y => lowerLe x y = true)) :
    (insertLe a l).Pairwise (fun x y => lowerLe x y = true) := by
  induction l with
  | nil => simp [insertLe]
  | cons b bs ih =>
    obtain ⟨hbx, hbs⟩ := List.pairwise_cons.mp h
    unfold insertLe
    by_cases hab : lowerLe a b = true
    · rw [if_pos hab]
      refine List.pairwise_cons.mpr ⟨?_, h⟩
      intro x hx
      rcases List.mem_cons.mp hx with hx | hx
      · subst hx
        exact hab
      · exact lowerLe_trans a b x hab (hbx x hx)
    · rw [if_neg hab]
      have hba : lowerLe b a = true := by
        have htot := lowerLe_total a b
        simp [hab] at htot
        exact htot
      refine List.pairwise_cons.mpr ⟨?_, ih hbs⟩
      intro x hx
      rcases List.mem_cons.mp ((insertLe_perm a bs).mem_iff.mp hx) with hx | hx
      · subst hx
        exact hba
      · exact hbx x hx

theorem pairwise_sortEntries (l : List Node) :
    (sortEntries l).Pairwise (fun x y => lowerLe x y = true) := by
  induction l with
  | nil => exact List.Pairwise.nil
  | cons a as ih => exact pairwise_insertLe a (sortEntries as) ih

theorem iter_entries_sorted (top : List Node) (d l : Bool) :
    (iter_entries top d l).Pairwise (fun a b => lowerLe a b = true) :=
  List.Pairwise.filter _ (pairwise_sortEntries top)

theorem plan_srcs_sublist (opts : Options) :
    ∀ (es : List Node) (fs : FS),
      List.Sublist ((plan_ops_go opts fs es).1.map Op.src) (es.map Node.name) := by
  intro es
  induction es with
  | nil => intro fs; simp [plan_ops_go]
  | cons e es ih =>
    intro fs
    simp only [plan_ops_go, List.map_cons]
    cases hfy : file_year e opts.date_source with
    | none => exact List.Sublist.cons e.name (ih fs)
    | some y =>
      by_cases hcol : (topExists fs (Nat.repr y) && !topIsDir fs (Nat.repr y)) = true
      · simp only [hcol, if_true]
        exact List.Sublist.cons e.name (ih fs)
      · simp only [hcol, if_false]
        cases hmk : (if opts.dry_run then some fs else mkdir_exist_ok fs (Nat.repr y)) with
        | none => exact List.Sublist.cons e.name (ih fs)
        | some fs1 =>
          simp only [List.map_cons]
          exact List.Sublist.cons₂ e.name (ih fs1)

theorem plan_ops_go_dry_fs (opts : Options) (h : opts.dry_run = true) :
    ∀ (es : List Node) (fs : FS), (plan_ops_go opts fs es).2.2 = fs := by
  intro es
  induction es with
  | nil => intro fs; simp [plan_ops_go]
  | cons e es ih =>
    intro fs
    simp only [plan_ops_go, h, if_true]
    cases hfy : file_year e opts.date_source with
    | none => exact ih fs
    | some y =>
      by_cases hcol : (topExists fs (Nat.repr y) && !topIsDir fs (Nat.repr y)) = true
      · simp only [hcol, if_true]
        exact ih fs
      · simp only [hcol, if_false]
        exact ih fs

theorem do_transfer_none_iff (fs : FS) (mode : Name) (op : Op) :
    do_transfer fs mode op = none ↔ fs.failTransfer.contains (op.src, op.dest) = true := by
  unfold do_transfer
  by_cases h : fs.failTransfer.contains (op.src, op.dest) = true
  · rw [if_pos h]
    exact iff_of_true rfl h
  · rw [if_neg h]
    constructor
    · intro hn
      split at hn <;> cases hn
    · intro hc
      exact absurd hc h

theorem do_transfer_some_failTransfer (fs : FS) (mode : Name) (op : Op) (fs1 : FS)
    (h : do_transfer fs mode op = some fs1) : fs1.failTransfer = fs.failTransfer := by
  unfold do_transfer at h
  split at h
  · cases h
  · split at h
    · cases h
      rfl
    · cases h
      rfl

theorem exec_all_attempted (mode : Name) :
    ∀ (ops : List Op) (fs : FS), (exec_all mode fs ops).2.2.2 = ops := by
  intro ops
  induction ops with
  | nil => intro fs; rfl
  | cons op ops ih =>
    intro fs
    simp only [exec_all]
    cases h : do_transfer fs mode op with
    | none => simp [ih fs]
    | some fs1 => simp [ih fs1]

theorem exec_all_errors (mode : Name) :
    ∀ (ops : List Op) (fs : FS),
      (exec_all mode fs ops).2.2.1 =
        (ops.filter (fun op => fs.failTransfer.contains (op.src, op.dest))).map
          (fun op => (op.src, op.dest))
      ∧ (exec_all mode fs ops).2.1 =
        (ops.filter (fun op => fs.failTransfer.contains (op.src, op.dest))).length := by
  intro ops
  induction ops with
  | nil => intro fs; exact ⟨rfl, rfl⟩
  | cons op ops ih =>
    intro fs
    cases h : do_transfer fs mode op with
    | none =>
      have hc : fs.failTransfer.contains (op.src, op.dest) = true :=
        (do_transfer_none_iff fs mode op).mp h
      have e1 : exec_all mode fs (op :: ops) =
          ((exec_all mode fs ops).1, (exec_all mode fs ops).2.1 + 1,
           (op.src, op.dest) :: (exec_all mode fs ops).2.2.1,
           op :: (exec_all mode fs ops).2.2.2) := by
        simp only [exec_all, h]
      rw [e1, @List.filter_cons_of_pos Op (fun o => fs.failTransfer.contains (o.src, o.dest))
        op ops hc]
      constructor
      · show (op.src, op.dest) :: (exec_all mode fs ops).2.2.1 = _
        rw [(ih fs).1, List.map_cons]
      · show (exec_all mode fs ops).2.1 + 1 = _
        rw [(ih fs).2, List.length_cons]
    | some fs1 =>
      have hc : ¬ fs.failTransfer.contains (op.src, op.dest) = true := by
        intro hc
        rw [← do_transfer_none_iff fs mode op] at hc
        rw [h] at hc
        cases hc
      have hft : fs1.failTransfer = fs.failTransfer :=
        do_transfer_some_failTransfer fs mode op fs1 h
      have e1 : exec_all mode fs (op :: ops) =
          ((exec_all mode fs1 ops).1, (exec_all mode fs1 ops).2.1,
           (exec_all mode fs1 ops).2.2.1, op :: (exec_all mode fs1 ops).2.2.2) := by
        simp only [exec_all, h]
      rw [e1, @List.filter_cons_of_neg Op (fun o => fs.failTransfer.contains (o.src, o.dest))
        op ops hc]
      have h1 := (ih fs1).1
      have h2 := (ih fs1).2
      rw [hft] at h1 h2
      exact ⟨h1, h2⟩

theorem mkdir_cases (fs : FS) (td : Name) (fs1 : FS) (h : mkdir_exist_ok fs td = some fs1) :
    fs1 = fs ∨ fs1 = { fs with top := fs.top ++ [dirNode td] } := by
  unfold mkdir_exist_ok at h
  split at h
  · exact Or.inl (Option.some.inj h).symm
  · split at h
    · cases h
    · exact Or.inr (Option.some.inj h).symm

theorem pg_none (opts : Options) (fs : FS) (e : Node) (es : List Node)
    (hfy : file_year e opts.date_source = none) :
    plan_ops_go opts fs (e :: es) =
      ((plan_ops_go opts fs es).1,
       (if opts.verbose then [LogMsg.warnTime e.name] else []) ++ (plan_ops_go opts fs es).2.1,
       (plan_ops_go opts fs es).2.2) := by
  simp only [plan_ops_go, hfy]

theorem pg_collision (opts : Options) (fs : FS) (e : Node) (es : List Node) (y : Nat)
    (hfy : file_year e opts.date_source = some y)
    (hcol : (topExists fs (Nat.repr y) && !topIsDir fs (Nat.repr y)) = true) :
    plan_ops_go opts fs (e :: es) =
      ((plan_ops_go opts fs es).1,
       LogMsg.warnNotDir e.name :: (plan_ops_go opts fs es).2.1,
       (plan_ops_go opts fs es).2.2) := by
  simp only [plan_ops_go, hfy, hcol, if_true]

theorem pg_mkfail (opts : Options) (fs : FS) (e : Node) (es : List Node) (y : Nat)
    (hfy : file_year e opts.date_source = some y)
    (hcol : (topExists fs (Nat.repr y) && !topIsDir fs (Nat.repr y)) = false)
    (hmk : (if opts.dry_run then some fs else mkdir_exist_ok fs (Nat.repr y)) = none) :
    plan_ops_go opts fs (e :: es) =
      ((plan_ops_go opts fs es).1,
       LogMsg.warnMkdir e.name :: (plan_ops_go opts fs es).2.1,
       (plan_ops_go opts fs es).2.2) := by
  simp only [plan_ops_go, hfy, hcol, Bool.false_eq_true, if_false, hmk]

theorem pg_ok (opts : Options) (fs : FS) (e : Node) (es : List Node) (y : Nat) (fs1 : FS)
    (hfy : file_year e opts.date_source = some y)
    (hcol : (topExists fs (Nat.repr y) && !topIsDir fs (Nat.repr y)) = false)
    (hmk : (if opts.dry_run then some fs else mkdir_exist_ok fs (Nat.repr y)) = some fs1) :
    plan_ops_go opts fs (e :: es) =
      (⟨e.name, unique_destination (existingPaths fs1) [Nat.repr y, e.name]⟩ ::
         (plan_ops_go opts fs1 es).1,
       (plan_ops_go opts fs1 es).2.1, (plan_ops_go opts fs1 es).2.2) := by
  simp only [plan_ops_go, hfy, hcol, Bool.false_eq_true, if_false, hmk]

theorem plan_ops_go_failTransfer (opts : Options) :
    ∀ (es : List Node) (fs : FS),
      (plan_ops_go opts fs es).2.2.failTransfer = fs.failTransfer := by
  intro es
  induction es with
  | nil => intro fs; rfl
  | cons e es ih =>
    intro fs
    cases hfy : file_year e opts.date_source with
    | none =>
      rw [pg_none opts fs e es hfy]
      exact ih fs
    | some y =>
      cases hcol : (topExists fs (Nat.repr y) && !topIsDir fs (Nat.repr y)) with
      | true =>
        rw [pg_collision opts fs e es y hfy hcol]
        exact ih fs
      | false =>
        cases hmk : (if opts.dry_run then some fs else mkdir_exist_ok fs (Nat.repr y)) with
        | none =>
          rw [pg_mkfail opts fs e es y hfy hcol hmk]
          exact ih fs
        | some fs1 =>
          have hft : fs1.failTransfer = fs.failTransfer := by
            by_cases hd : opts.dry_run = true
            · rw [if_pos hd] at hmk
              rw [← Option.some.inj hmk]
            · rw [if_neg hd] at hmk
              rcases mkdir_cases fs (Nat.repr y) fs1 hmk with h | h <;> rw [h]
          rw [pg_ok opts fs e es y fs1 hfy hcol hmk]
          show (plan_ops_go opts fs1 es).2.2.failTransfer = fs.failTransfer
          rw [ih fs1, hft]

theorem plan_ops_go_empty_fs (opts : Options) :
    ∀ (es : List Node) (fs : FS),
      (plan_ops_go opts fs es).1 = [] → (plan_ops_go opts fs es).2.2 = fs := by
  intro es
  induction es with
  | nil => intro fs _; rfl
  | cons e es ih =>
    intro fs hnil
    cases hfy : file_year e opts.date_source with
    | none =>
      rw [pg_none opts fs e es hfy] at hnil ⊢
      exact ih fs hnil
    | some y =>
      cases hcol : (topExists fs (Nat.repr y) && !topIsDir fs (Nat.repr y)) with
      | true =>
        rw [pg_collision opts fs e es y hfy hcol] at hnil ⊢
        exact ih fs hnil
      | false =>
        cases hmk : (if opts.dry_run then some fs else mkdir_exist_ok fs (Nat.repr y)) with
        | none =>
          rw [pg_mkfail opts fs e es y hfy hcol hmk] at hnil ⊢
          exact ih fs hnil
        | some fs1 =>
          rw [pg_ok opts fs e es y fs1 hfy hcol hmk] at hnil
          cases hnil

theorem main_run_planned (opts : Options) (fs : FS) :
    (main_run opts fs).planned = (plan_ops opts fs).1 := by
  unfold main_run
  by_cases hE : (plan_ops opts fs).1.isEmpty <;> by_cases hd : opts.dry_run <;>
    simp [hE, hd]

theorem main_run_empty_eq (opts : Options) (fs : FS)
    (hE : (plan_ops opts fs).1.isEmpty = true) :
    main_run opts fs =
      ⟨(plan_ops opts fs).2.2, (plan_ops opts fs).1, [], [], 0, [],
       (plan_ops opts fs).2.1, true, true⟩ := by
  simp only [main_run]
  rw [if_pos hE]

theorem main_run_dry_eq (opts : Options) (fs : FS) (hd : opts.dry_run = true)
    (hne : ¬ (plan_ops opts fs).1.isEmpty = true) :
    main_run opts fs =
      ⟨(plan_ops opts fs).2.2, (plan_ops opts fs).1,
       (plan_ops opts fs).1.map (previewLine opts), [], 0, [],
       (plan_ops opts fs).2.1, false, true⟩ := by
  simp only [main_run]
  rw [if_neg hne, if_pos hd]

theorem main_run_exec_eq (opts : Options) (fs : FS) (hd : opts.dry_run = false)
    (hne : ¬ (plan_ops opts fs).1.isEmpty = true) :
    main_run opts fs =
      ⟨(exec_all opts.mode (plan_ops opts fs).2.2 (plan_ops opts fs).1).1,
       (plan_ops opts fs).1,
       (plan_ops opts fs).1.map (previewLine opts),
       (exec_all opts.mode (plan_ops opts fs).2.2 (plan_ops opts fs).1).2.2.2,
       (exec_all opts.mode (plan_ops opts fs).2.2 (plan_ops opts fs).1).2.1,
       (exec_all opts.mode (plan_ops opts fs).2.2 (plan_ops opts fs).1).2.2.1,
       (plan_ops opts fs).2.1, false,
       (exec_all opts.mode (plan_ops opts fs).2.2 (plan_ops opts fs).1).2.1 == 0⟩ := by
  simp only [main_run]
  rw [if_neg hne, if_neg (by simp [hd])]

theorem digitChar_isDigit : ∀ d, d < 10 → (Nat.digitChar d).isDigit = true := by decide

theorem reprDigits_length_four (n : Nat) (h1 : 1000 ≤ n) (h2 : n < 10000) :
    (reprDigits n).length = 4 := by
  have b1 : ¬ n < 10 := by omega
  have b2 : ¬ n / 10 < 10 := by omega
  have b3 : ¬ n / 10 / 10 < 10 := by omega
  have b4 : n / 10 / 10 / 10 < 10 := by omega
  rw [reprDigits_ge n b1, reprDigits_ge _ b2, reprDigits_ge _ b3, reprDigits_lt _ b4]
  simp

theorem reprDigits_isDigit (n : Nat) : ∀ c ∈ reprDigits n, c.isDigit = true := by
  induction n using Nat.strong_induction_on with
  | _ n ih =>
    by_cases h : n < 10
    · rw [reprDigits_lt n h]
      intro c hc
      rw [List.mem_singleton] at hc
      subst hc
      exact digitChar_isDigit n h
    · rw [reprDigits_ge n h]
      intro c hc
      rcases List.mem_append.mp hc with hc | hc
      · exact ih (n / 10) (Nat.div_lt_self (by omega) (by omega)) c hc
      · rw [List.mem_singleton] at hc
        subst hc
        exact digitChar_isDigit (n % 10) (by omega)

theorem repr_year_name (y : Nat) (h1 : 1000 ≤ y) (h2 : y < 10000) :
    strIsDigit (Nat.repr y) = true ∧ (Nat.repr y).length = 4 := by
  have hdata := repr_data y
  have hlen4 : (Nat.repr y).length = 4 := by
    show (Nat.repr y).data.length = 4
    rw [hdata]
    exact reprDigits_length_four y h1 h2
  refine ⟨?_, hlen4⟩
  unfold strIsDigit
  rw [hdata]
  rw [Bool.and_eq_true]
  constructor
  · have hne : reprDigits y ≠ [] := by
      intro hc
      have := reprDigits_length_four y h1 h2
      rw [hc] at this
      cases this
    simp [List.isEmpty_eq_false.mpr hne]
  · exact List.all_eq_true.mpr (fun c hc => reprDigits_isDigit y c hc)

theorem iter_entries_mem_top {top : List Node} {d l : Bool} {e : Node}
    (h : e ∈ iter_entries top d l) : e ∈ top :=
  mem_sortEntries.mp (List.mem_filter.mp h).1

theorem plan_src_in_top (opts : Options) (fs : FS) (op : Op)
    (h : op ∈ (plan_ops opts fs).1) : op.src ∈ fs.top.map Node.name := by
  have hsub :=
    plan_srcs_sublist opts (iter_entries fs.top opts.include_dirs opts.include_links) fs
  have h1 : op.src ∈ (plan_ops opts fs).1.map Op.src := List.mem_map_of_mem Op.src h
  have h2 := hsub.subset h1
  obtain ⟨e, he, heq⟩ := List.mem_map.mp h2
  rw [← heq]
  exact List.mem_map_of_mem Node.name (iter_entries_mem_top he)

theorem plan_ops_go_top (opts : Options) :
    ∀ (es : List Node) (fs : FS),
      (∀ e ∈ es, ∀ y, file_year e opts.date_source = some y → 1000 ≤ y ∧ y < 10000) →
      ∃ ds, (plan_ops_go opts fs es).2.2.top = fs.top ++ ds
        ∧ ∀ n ∈ ds, n.isDir = true ∧ strIsDigit n.name = true ∧ n.name.length = 4 := by
  intro es
  induction es with
  | nil =>
    intro fs _
    exact ⟨[], by simp [plan_ops_go], by simp⟩
  | cons e es ih =>
    intro fs hY
    have hYes : ∀ x ∈ es, ∀ y, file_year x opts.date_source = some y →
        1000 ≤ y ∧ y < 10000 :=
      fun x hx => hY x (List.mem_cons_of_mem e hx)
    cases hfy : file_year e opts.date_source with
    | none =>
      rw [pg_none opts fs e es hfy]
      exact ih fs hYes
    | some y =>
      cases hcol : (topExists fs (Nat.repr y) && !topIsDir fs (Nat.repr y)) with
      | true =>
        rw [pg_collision opts fs e es y hfy hcol]
        exact ih fs hYes
      | false =>
        cases hmk : (if opts.dry_run then some fs else mkdir_exist_ok fs (Nat.repr y)) with
        | none =>
          rw [pg_mkfail opts fs e es y hfy hcol hmk]
          exact ih fs hYes
        | some fs1 =>
          rw [pg_ok opts fs e es y fs1 hfy hcol hmk]
          have hbound := hY e (List.mem_cons_self e es) y hfy
          have hname := repr_year_name y hbound.1 hbound.2
          have hcases : fs1.top = fs.top ∨ fs1.top = fs.top ++ [dirNode (Nat.repr y)] := by
            by_cases hd : opts.dry_run = true
            · rw [if_pos hd] at hmk
              rw [← Option.some.inj hmk]
              exact Or.inl rfl
            · rw [if_neg hd] at hmk
              rcases mkdir_cases fs (Nat.repr y) fs1 hmk with h | h
              · rw [h]
                exact Or.inl rfl
              · rw [h]
                exact Or.inr rfl
          obtain ⟨ds, hds, hall⟩ := ih fs1 hYes
          rcases hcases with h | h
          · refine ⟨ds, ?_, hall⟩
            show (plan_ops_go opts fs1 es).2.2.top = fs.top ++ ds
            rw [hds, h]
          · refine ⟨dirNode (Nat.repr y) :: ds, ?_, ?_⟩
            · show (plan_ops_go opts fs1 es).2.2.top = fs.top ++ (dirNode (Nat.repr y) :: ds)
              rw [hds, h, List.append_assoc]
              rfl
            · intro n hn
              rcases List.mem_cons.mp hn with hn | hn
              · subst hn
                exact ⟨rfl, hname.1, hname.2⟩
              · exact hall n hn

theorem exec_all_move_top (mode : Name) (hm : ¬ mode = "copy") :
    ∀ (ops : List Op) (fs : FS), (exec_all mode fs ops).2.1 = 0 →
      (exec_all mode fs ops).1.top =
        fs.top.filter (fun e => !((ops.map Op.src).contains e.name)) := by
  intro ops
  induction ops with
  | nil =>
    intro fs _
    show fs.top = _
    simp
  | cons op ops ih =>
    intro fs hz
    cases h : do_transfer fs mode op with
    | none =>
      exfalso
      have e2 : (exec_all mode fs (op :: ops)).2.1 = (exec_all mode fs ops).2.1 + 1 := by
        simp only [exec_all, h]
      rw [e2] at hz
      omega
    | some fs1 =>
      have e1 : (exec_all mode fs (op :: ops)).1 = (exec_all mode fs1 ops).1 := by
        simp only [exec_all, h]
      have e2 : (exec_all mode fs (op :: ops)).2.1 = (exec_all mode fs1 ops).2.1 := by
        simp only [exec_all, h]
      rw [e1, ih fs1 (by rw [← e2]; exact hz)]
      have htop : fs1.top = fs.top.filter (fun e => !(e.name == op.src)) := by
        have hnc : ¬ fs.failTransfer.contains (op.src, op.dest) = true := by
          intro hc
          rw [← do_transfer_none_iff fs mode op] at hc
          rw [h] at hc
          cases hc
        unfold do_transfer at h
        rw [if_neg hnc, if_neg hm] at h
        cases h
        rfl
      rw [htop, List.filter_filter]
      apply List.filter_congr
      intro a _
      by_cases hq : a.name = op.src <;> simp [hq, List.contains_cons]

theorem find?_first {α : Type} (pr : α → Bool) :
    ∀ (l1 : List α) (p : α) (l2 : List α),
      (∀ q ∈ l1, pr q = false) → pr p = true →
      List.find? pr (l1 ++ p :: l2) = some p := by
  intro l1
  induction l1 with
  | nil =>
    intro p l2 _ hp
    rw [List.nil_append]
    exact List.find?_cons_of_pos l2 hp
  | cons q l1 ih =>
    intro p l2 hall hp
    rw [List.cons_append, List.find?_cons_of_neg]
    · exact ih p l2 (fun x hx => hall x (List.mem_cons_of_mem q hx)) hp
    · rw [hall q (List.mem_cons_self q l1)]
      intro hc
      cases hc

/-! ## Claims -/

/-- C1: the entry enumerator yields exactly the immediate children that
survive the three filtering rules, applied in order: a directory whose
name is exactly four (ASCII) digits is excluded always; if
`include_links` is false, symlinks and junctions are excluded; if
`include_dirs` is false, the remaining directories are excluded. -/
theorem c1_iter_entries_filter (top : List Node) (include_dirs include_links : Bool)
    (e : Node) :
    e ∈ iter_entries top include_dirs include_links ↔
      e ∈ top
      ∧ ¬(e.isDir = true ∧ strIsDigit e.name = true ∧ e.name.length = 4)
      ∧ (include_links = false → ¬(e.isSymlink = true ∨ is_windows_junction e = true))
      ∧ (include_dirs = false → e.isDir = false) := by
  rw [iter_entries, List.mem_filter, mem_sortEntries, keepEntry_iff]

/-- Witness for C1: a four-digit directory is rejected, a plain file is
yielded. -/
theorem c1_iter_entries_filter_witness :
    fileNode "a.txt" 2021 ∈ iter_entries [fileNode "a.txt" 2021, dirNode "2021"] false false
    ∧ ¬ dirNode "2021" ∈ iter_entries [fileNode "a.txt" 2021, dirNode "2021"] false false := by
  constructor
  · exact (c1_iter_entries_filter [fileNode "a.txt" 2021, dirNode "2021"] false false
      (fileNode "a.txt" 2021)).mpr (by decide)
  · intro hmem
    have h := (c1_iter_entries_filter [fileNode "a.txt" 2021, dirNode "2021"] false false
      (dirNode "2021")).mp hmem
    exact absurd h (by decide)

/-- C2: `unique_destination` returns a non-existing candidate unchanged,
and for an existing candidate returns the first of
`stem (1)suffix`, `stem (2)suffix`, … that does not exist; either way
the returned path does not exist at the moment of the check. -/
theorem c2_unique_destination_spec (ex : List FPath) (dest : FPath) :
    (dest ∉ ex → unique_destination ex dest = dest)
    ∧ (dest ∈ ex → ∃ n, 1 ≤ n ∧ unique_destination ex dest = candidateAt dest n
        ∧ candidateAt dest n ∉ ex
        ∧ ∀ m, 1 ≤ m → m < n → candidateAt dest m ∈ ex)
    ∧ unique_destination ex dest ∉ ex := by
  refine ⟨?_, ?_, ?_⟩
  · intro h
    rw [unique_destination, if_neg h]
  · intro h
    exact unique_destination_exists ex dest h
  · by_cases h : dest ∈ ex
    · obtain ⟨n, _, h2, h3, _⟩ := unique_destination_exists ex dest h
      rw [h2]
      exact h3
    · rw [unique_destination, if_neg h]
      exact h

/-- Witness for C2: a fresh path is returned unchanged; an occupied one
resolves to a path that does not exist. -/
theorem c2_unique_destination_spec_witness :
    unique_destination [["2021", "photo.jpg"]] ["2021", "b.txt"] = ["2021", "b.txt"]
    ∧ unique_destination [["2021", "photo.jpg"]] ["2021", "photo.jpg"]
        ∉ [["2021", "photo.jpg"]] :=
  ⟨(c2_unique_destination_spec [["2021", "photo.jpg"]] ["2021", "b.txt"]).1 (by decide),
   (c2_unique_destination_spec [["2021", "photo.jpg"]] ["2021", "photo.jpg"]).2.2⟩

/-- C3: with `--dry-run` set, a run performs no filesystem mutation,
whatever the remaining options and the filesystem state. -/
theorem c3_dry_run_no_mutation (opts : Options) (fs : FS) (h : opts.dry_run = true) :
    (main_run opts fs).fs = fs := by
  have hp : (plan_ops opts fs).2.2 = fs :=
    plan_ops_go_dry_fs opts h (iter_entries fs.top opts.include_dirs opts.include_links) fs
  by_cases hE : (plan_ops opts fs).1.isEmpty <;> simp [main_run, hE, h, hp]

/-- Witness for C3: a dry run over a sortable file leaves the
filesystem untouched. -/
theorem c3_dry_run_no_mutation_witness : (main_run optsDry fsW1).fs = fsW1 :=
  c3_dry_run_no_mutation optsDry fsW1 rfl

/-- C5: the plan is fully materialised before any transfer: the printed
preview is exactly the planned `(source, destination)` sequence, and the
executor attempts exactly that sequence, pair for pair and in order
(in a dry run it attempts nothing, and the preview is what it would
perform). -/
theorem c5_preview_matches_execution (opts : Options) (fs : FS) :
    (main_run opts fs).preview = (main_run opts fs).planned.map (previewLine opts)
    ∧ (opts.dry_run = false → (main_run opts fs).attempted = (main_run opts fs).planned)
    ∧ (opts.dry_run = true → (main_run opts fs).attempted = []) := by
  by_cases hE : (plan_ops opts fs).1.isEmpty = true
  · rw [main_run_empty_eq opts fs hE]
    have hnil : (plan_ops opts fs).1 = [] := List.isEmpty_iff.mp hE
    simp [hnil]
  · by_cases hd : opts.dry_run = true
    · rw [main_run_dry_eq opts fs hd hE]
      refine ⟨rfl, ?_, fun _ => rfl⟩
      intro h
      rw [h] at hd
      exact Bool.noConfusion hd
    · have hd2 : opts.dry_run = false := by
        cases h : opts.dry_run
        · rfl
        · exact absurd h hd
      rw [main_run_exec_eq opts fs hd2 hE]
      refine ⟨rfl, fun _ => exec_all_attempted opts.mode (plan_ops opts fs).1 _, ?_⟩
      intro h
      exact absurd h hd

/-- Witness for C5: on a one-file directory the preview matches the
plan and the executor attempts exactly the planned operations. -/
theorem c5_preview_matches_execution_witness :
    (main_run optsMove fsW1).preview = (main_run optsMove fsW1).planned.map (previewLine optsMove)
    ∧ (main_run optsMove fsW1).attempted = (main_run optsMove fsW1).planned :=
  ⟨(c5_preview_matches_execution optsMove fsW1).1,
   (c5_preview_matches_execution optsMove fsW1).2.1 rfl⟩

/-- C6: every per-entry planning error is recovered by
skip-and-continue: an unreadable-metadata entry is skipped with a
warning only when verbose; an entry whose year-folder path is occupied
by a non-directory is skipped with a warning always; an entry whose
year folder cannot be created is skipped with a warning; in each case
the plan continues with the remaining entries. -/
theorem c6_plan_error_recovery (opts : Options) (fs : FS) (e : Node) (es : List Node) :
    (file_year e opts.date_source = none → opts.verbose = true →
      plan_ops_go opts fs (e :: es) =
        ((plan_ops_go opts fs es).1,
         LogMsg.warnTime e.name :: (plan_ops_go opts fs es).2.1,
         (plan_ops_go opts fs es).2.2))
    ∧ (file_year e opts.date_source = none → opts.verbose = false →
        plan_ops_go opts fs (e :: es) = plan_ops_go opts fs es)
    ∧ (∀ y, file_year e opts.date_source = some y →
        (topExists fs (Nat.repr y) && !topIsDir fs (Nat.repr y)) = true →
        plan_ops_go opts fs (e :: es) =
          ((plan_ops_go opts fs es).1,
           LogMsg.warnNotDir e.name :: (plan_ops_go opts fs es).2.1,
           (plan_ops_go opts fs es).2.2))
    ∧ (∀ y, file_year e opts.date_source = some y →
        (topExists fs (Nat.repr y) && !topIsDir fs (Nat.repr y)) = false →
        opts.dry_run = false → mkdir_exist_ok fs (Nat.repr y) = none →
        plan_ops_go opts fs (e :: es) =
          ((plan_ops_go opts fs es).1,
           LogMsg.warnMkdir e.name :: (plan_ops_go opts fs es).2.1,
           (plan_ops_go opts fs es).2.2)) := by
  refine ⟨?_, ?_, ?_, ?_⟩
  · intro hfy hv
    rw [pg_none opts fs e es hfy]
    simp [hv]
  · intro hfy hv
    rw [pg_none opts fs e es hfy]
    simp [hv]
  · intro y hfy hcol
    exact pg_collision opts fs e es y hfy hcol
  · intro y hfy hcol hdry hmk
    refine pg_mkfail opts fs e es y hfy hcol ?_
    rw [if_neg (by simp [hdry])]
    exact hmk

/-- Witness for C6: the three skip cases on concrete one-entry
directories. -/
theorem c6_plan_error_recovery_witness :
    plan_ops_go optsVerb fsEmpty [eBad] = ([], [LogMsg.warnTime "x"], fsEmpty)
    ∧ plan_ops_go optsMove fsEmpty [eBad] = ([], [], fsEmpty)
    ∧ plan_ops_go optsMove fs2021 [eA] = ([], [LogMsg.warnNotDir "a"], fs2021)
    ∧ plan_ops_go optsMove fsBad [eA] = ([], [LogMsg.warnMkdir "a"], fsBad) := by
  refine ⟨?_, ?_, ?_, ?_⟩
  · exact ((c6_plan_error_recovery optsVerb fsEmpty eBad []).1 rfl rfl).trans (by decide)
  · exact ((c6_plan_error_recovery optsMove fsEmpty eBad []).2.1 rfl rfl).trans (by decide)
  · exact ((c6_plan_error_recovery optsMove fs2021 eA []).2.2.1 2021 (by decide)
      (by decide)).trans (by decide)
  · exact ((c6_plan_error_recovery optsMove fsBad eA []).2.2.2 2021 (by decide)
      (by decide) rfl (by decide)).trans (by decide)

/-- C7: each operation failure is caught, recorded with its
source/destination, and counted; every operation is attempted (no
failure aborts the batch); the exit status is zero exactly when no
transfer failed; an empty plan prints `Nothing to do.` and exits
zero. -/
theorem c7_executor_failure_tolerance (opts : Options) (fs : FS) (hd : opts.dry_run = false) :
    (main_run opts fs).attempted = (main_run opts fs).planned
    ∧ (main_run opts fs).errors =
        ((main_run opts fs).planned.filter
          (fun op => fs.failTransfer.contains (op.src, op.dest))).map
          (fun op => (op.src, op.dest))
    ∧ (main_run opts fs).failures = (main_run opts fs).errors.length
    ∧ ((main_run opts fs).exitOk = true ↔ (main_run opts fs).failures = 0)
    ∧ ((main_run opts fs).planned = [] →
        (main_run opts fs).nothingToDo = true ∧ (main_run opts fs).exitOk = true) := by
  by_cases hE : (plan_ops opts fs).1.isEmpty = true
  · rw [main_run_empty_eq opts fs hE]
    have hnil : (plan_ops opts fs).1 = [] := List.isEmpty_iff.mp hE
    simp [hnil]
  · rw [main_run_exec_eq opts fs hd hE]
    have hft : (plan_ops opts fs).2.2.failTransfer = fs.failTransfer :=
      plan_ops_go_failTransfer opts
        (iter_entries fs.top opts.include_dirs opts.include_links) fs
    have he := exec_all_errors opts.mode (plan_ops opts fs).1 (plan_ops opts fs).2.2
    rw [hft] at he
    refine ⟨exec_all_attempted opts.mode (plan_ops opts fs).1 _, he.1, ?_, ?_, ?_⟩
    · rw [he.1, he.2, List.length_map]
    · simp [beq_iff_eq]
    · intro h
      have h2 : (plan_ops opts fs).1 = [] := h
      rw [h2] at hE
      exact absurd rfl hE

/-- Witness for C7: a directory where exactly one of two transfers
fails: both are attempted, one error is recorded with its pair, the
exit is nonzero; and an empty directory prints `Nothing to do.`. -/
theorem c7_executor_failure_tolerance_witness :
    (main_run optsMove fsFail).attempted = (main_run optsMove fsFail).planned
    ∧ (main_run optsMove fsFail).errors =
        ((main_run optsMove fsFail).planned.filter
          (fun op => fsFail.failTransfer.contains (op.src, op.dest))).map
          (fun op => (op.src, op.dest))
    ∧ ((main_run optsMove fsFail).exitOk = true ↔ (main_run optsMove fsFail).failures = 0) :=
  ⟨(c7_executor_failure_tolerance optsMove fsFail rfl).1,
   (c7_executor_failure_tolerance optsMove fsFail rfl).2.1,
   (c7_executor_failure_tolerance optsMove fsFail rfl).2.2.2.1⟩

/-- Counterexample to C4 as stated: in `fsC4` the first move-mode run
succeeds (zero failures) and no file is created between the runs, yet
the second run does not report `Nothing to do`: the entry `a` was
skipped by run one (its year-folder name `2021` was occupied by a
file), run one moved that file away, so run two plans an operation. -/
theorem c4_counterexample :
    (main_run optsMove fsC4).failures = 0
    ∧ (main_run optsMove (main_run optsMove fsC4).fs).nothingToDo = false
    ∧ (main_run optsMove (main_run optsMove fsC4).fs).planned ≠ [] := by decide

/-- C4 (amended): after a move-mode run with zero transfer failures,
the second run plans no operation for any entry the first run sorted;
and when additionally every enumerated entry received an operation (no
planning-time skips) and every resolved year lies in 1000–9999, the
second run plans nothing and reports `Nothing to do`. -/
theorem c4_idempotent_amended (opts : Options) (fs0 : FS)
    (hm : opts.mode = "move") (hd : opts.dry_run = false)
    (hfail : (main_run opts fs0).failures = 0) :
    (∀ op1 ∈ (main_run opts fs0).planned,
       ∀ op2 ∈ (main_run opts (main_run opts fs0).fs).planned, op2.src ≠ op1.src)
    ∧ ((∀ e ∈ fs0.top, ∀ y, file_year e opts.date_source = some y →
          1000 ≤ y ∧ y < 10000) →
       (main_run opts fs0).planned.map Op.src =
         (iter_entries fs0.top opts.include_dirs opts.include_links).map Node.name →
       (main_run opts (main_run opts fs0).fs).planned = []
       ∧ (main_run opts (main_run opts fs0).fs).nothingToDo = true) := by
  by_cases hE : (plan_ops opts fs0).1.isEmpty = true
  · have hnil : (plan_ops opts fs0).1 = [] := List.isEmpty_iff.mp hE
    have hfs : (plan_ops opts fs0).2.2 = fs0 :=
      plan_ops_go_empty_fs opts (iter_entries fs0.top opts.include_dirs opts.include_links)
        fs0 hnil
    have hplanned : (main_run opts fs0).planned = [] := by
      rw [main_run_planned opts fs0]
      exact hnil
    have hrfs : (main_run opts fs0).fs = fs0 := by
      rw [main_run_empty_eq opts fs0 hE]
      exact hfs
    constructor
    · intro op1 h1
      rw [hplanned] at h1
      exact absurd h1 (List.not_mem_nil op1)
    · intro _ _
      rw [hrfs]
      refine ⟨hplanned, ?_⟩
      rw [main_run_empty_eq opts fs0 hE]
  · have hmain := main_run_exec_eq opts fs0 hd hE
    have hplanned : (main_run opts fs0).planned = (plan_ops opts fs0).1 :=
      main_run_planned opts fs0
    have hrfs : (main_run opts fs0).fs =
        (exec_all opts.mode (plan_ops opts fs0).2.2 (plan_ops opts fs0).1).1 := by
      rw [hmain]
    have hfailures :
        (exec_all opts.mode (plan_ops opts fs0).2.2 (plan_ops opts fs0).1).2.1 = 0 := by
      have h := hfail
      rw [hmain] at h
      exact h
    have hmode : ¬ opts.mode = "copy" := by
      rw [hm]
      intro hco
      exact absurd hco (by decide)
    have htop2 : (main_run opts fs0).fs.top =
        (plan_ops opts fs0).2.2.top.filter
          (fun e => !(((plan_ops opts fs0).1.map Op.src).contains e.name)) := by
      rw [hrfs]
      exact exec_all_move_top opts.mode hmode (plan_ops opts fs0).1 _ hfailures
    constructor
    · intro op1 h1 op2 h2
      rw [hplanned] at h1
      have h2b : op2 ∈ (plan_ops opts (main_run opts fs0).fs).1 := by
        rw [← main_run_planned]
        exact h2
      have hsrc2 := plan_src_in_top opts (main_run opts fs0).fs op2 h2b
      obtain ⟨e, he, heq⟩ := List.mem_map.mp hsrc2
      rw [htop2] at he
      have hpred := (List.mem_filter.mp he).2
      intro hcontra
      have hsrc1 : op1.src ∈ (plan_ops opts fs0).1.map Op.src :=
        List.mem_map_of_mem Op.src h1
      rw [← hcontra, ← heq] at hsrc1
      have hcon : ((plan_ops opts fs0).1.map Op.src).contains e.name = true :=
        List.elem_iff.mpr hsrc1
      rw [hcon] at hpred
      cases hpred
    · intro hY hcomp
      rw [hplanned] at hcomp
      have hYes : ∀ e ∈ iter_entries fs0.top opts.include_dirs opts.include_links,
          ∀ y, file_year e opts.date_source = some y → 1000 ≤ y ∧ y < 10000 :=
        fun e he => hY e (iter_entries_mem_top he)
      obtain ⟨ds, hds, hall⟩ :=
        plan_ops_go_top opts (iter_entries fs0.top opts.include_dirs opts.include_links)
          fs0 hYes
      have hkeep : ∀ e ∈ (main_run opts fs0).fs.top,
          keepEntry opts.include_dirs opts.include_links e = false := by
        intro e he
        rw [htop2] at he
        obtain ⟨heM, hpred⟩ := List.mem_filter.mp he
        have heM2 : e ∈ fs0.top ++ ds := by
          have hds2 : (plan_ops opts fs0).2.2.top = fs0.top ++ ds := hds
          rw [← hds2]
          exact heM
        rcases List.mem_append.mp heM2 with he0 | heds
        · cases hk : keepEntry opts.include_dirs opts.include_links e with
          | false => rfl
          | true =>
            exfalso
            have hiter : e ∈ iter_entries fs0.top opts.include_dirs opts.include_links :=
              List.mem_filter.mpr ⟨mem_sortEntries.mpr he0, hk⟩
            have hnm : e.name ∈
                (iter_entries fs0.top opts.include_dirs opts.include_links).map Node.name :=
              List.mem_map_of_mem Node.name hiter
            rw [← hcomp] at hnm
            have hcon : ((plan_ops opts fs0).1.map Op.src).contains e.name = true :=
              List.elem_iff.mpr hnm
            rw [hcon] at hpred
            cases hpred
        · obtain ⟨hdir, hdig, hlen⟩ := hall e heds
          cases hk : keepEntry opts.include_dirs opts.include_links e with
          | false => rfl
          | true =>
            exact absurd ⟨hdir, hdig, hlen⟩
              ((keepEntry_iff opts.include_dirs opts.include_links e).mp hk).1
      have hiter2 : iter_entries (main_run opts fs0).fs.top
          opts.include_dirs opts.include_links = [] := by
        unfold iter_entries
        apply List.filter_eq_nil_iff.mpr
        intro a ha
        rw [hkeep a (mem_sortEntries.mp ha)]
        simp
      have hplan2 : (plan_ops opts (main_run opts fs0).fs).1 = [] := by
        unfold plan_ops
        rw [hiter2]
        rfl
      have hE2 : (plan_ops opts (main_run opts fs0).fs).1.isEmpty = true := by
        rw [hplan2]
        rfl
      constructor
      · rw [main_run_planned]
        exact hplan2
      · rw [main_run_empty_eq opts _ hE2]

/-- Witness for C4 (amended): a one-file directory is fully sorted by
the first run and the second run reports `Nothing to do`. -/
theorem c4_idempotent_amended_witness :
    (main_run optsMove (main_run optsMove fsW1).fs).planned = []
    ∧ (main_run optsMove (main_run optsMove fsW1).fs).nothingToDo = true :=
  (c4_idempotent_amended optsMove fsW1 rfl rfl (by decide)).2
    (by
      intro e he y hy
      have he2 : e ∈ [fileNode "a.txt" 2021] := he
      rw [List.mem_singleton] at he2
      subst he2
      have h2 : (some 2021 : Option Nat) = some y := hy
      have h3 := Option.some.inj h2
      omega)
    (by decide)

/-- C9: the enumerator's output is sorted in case-insensitive ascending
name order, and the planner's operations follow that enumeration order
(their sources are a subsequence of the enumerated names); both are
pure functions of the directory snapshot and the options, so two runs
over the same snapshot give identical output. -/
theorem c9_deterministic_order (opts : Options) (fs : FS) :
    (iter_entries fs.top opts.include_dirs opts.include_links).Pairwise
      (fun a b => lowerLe a b = true)
    ∧ List.Sublist ((plan_ops opts fs).1.map Op.src)
        ((iter_entries fs.top opts.include_dirs opts.include_links).map Node.name) :=
  ⟨iter_entries_sorted fs.top opts.include_dirs opts.include_links,
   plan_srcs_sublist opts (iter_entries fs.top opts.include_dirs opts.include_links) fs⟩


/-- Counterexample to C8 as stated: on Windows with `OneDrive` set and
no candidate existing as a directory, the fallback is the OneDrive
Downloads path, not the home-directory Downloads path. -/
theorem c8_counterexample :
    (dd_candidates envC8).all (fun p => !(dd_ok envC8 p)) = true
    ∧ default_downloads_dir envC8 = ["C:/OneDrive", "Downloads"]
    ∧ default_downloads_dir envC8 ≠ [envC8.home, "Downloads"] := by decide

/-- C8 (amended): the resolver returns the first candidate of the
platform candidate list that exists and is a directory (probes that
raise are skipped); if none qualifies it returns the first candidate of
the list, even when that path is absent. -/
theorem c8_default_downloads_amended (env : Env) :
    ((∀ p ∈ dd_candidates env, dd_ok env p = false) →
      default_downloads_dir env = (dd_candidates env).headD [])
    ∧ (∀ l1 p l2, dd_candidates env = l1 ++ p :: l2 →
        (∀ q ∈ l1, dd_ok env q = false) → dd_ok env p = true →
        default_downloads_dir env = p) := by
  constructor
  · intro h
    unfold default_downloads_dir
    have hn : (dd_candidates env).find? (dd_ok env) = none := by
      apply List.find?_eq_none.mpr
      intro x hx
      rw [h x hx]
      intro hc
      cases hc
    rw [hn]
  · intro l1 p l2 hsplit hprev hp
    unfold default_downloads_dir
    rw [hsplit, find?_first (dd_ok env) l1 p l2 hprev hp]

/-- Witness for C8 (amended): the no-candidate fallback on `envC8` and
the first-existing-candidate case on `envW8`. -/
theorem c8_default_downloads_amended_witness :
    default_downloads_dir envC8 = (dd_candidates envC8).headD []
    ∧ default_downloads_dir envW8 = ["/home/u", "Downloads"] :=
  ⟨(c8_default_downloads_amended envC8).1 (by decide),
   (c8_default_downloads_amended envW8).2 [] ["/home/u", "Downloads"] [] (by decide)
     (by intro q hq; cases hq) (by decide)⟩

/-- C10: planned destinations are not pairwise distinct: with siblings
`photo.jpg` and `photo (1).jpg` both of year 2021 and `2021/photo.jpg`
already existing, the materialised plan maps both sources to the same
destination `2021/photo (1).jpg`, because each probe only consults the
paths existing at planning time. -/
theorem c10_duplicate_destinations :
    (plan_ops optsMove fsC10).1 =
      [⟨"photo (1).jpg", ["2021", "photo (1).jpg"]⟩,
       ⟨"photo.jpg", ["2021", "photo (1).jpg"]⟩]
    ∧ ∃ op1 op2, (plan_ops optsMove fsC10).1 = [op1, op2]
        ∧ op1.src ≠ op2.src ∧ op1.dest = op2.dest := by
  constructor
  · decide
  · exact ⟨⟨"photo (1).jpg", ["2021", "photo (1).jpg"]⟩,
      ⟨"photo.jpg", ["2021", "photo (1).jpg"]⟩, by decide, by decide, by decide⟩

end SortDownloads
